import Mathlib

/-!
Verification of the envelope reconciliation and rebalancing engine of
`src/budget_dashboard_demo.py` (functions `process_data` and `smartRebalance`).

Modelling conventions (shallow embedding):
* Monetary amounts are integer cents (`Int`).  The Python code rounds every
  monetary quantity to two decimals at each accumulation step, so on inputs
  that are whole numbers of cents every `round(x, 2)` in the source is the
  identity and exact `Int` arithmetic is faithful.  The source's comparison
  thresholds `-0.01` / `0.01` (dollars) become `-1` / `1` (cents).
* Month keys (`"YYYY-MM"` strings compared lexicographically in the source)
  are `Nat`, since lexicographic comparison of such strings coincides with
  chronological order.  Dates are `Nat` day keys, used only for comparison
  against the configured budget start date.
* Category labels remain `String`s.
* The pandas data frames become lists of records; `DataFrame.iloc[0]` on a
  filtered frame becomes `List.head?` of the filtered list, `iloc[-1]`
  becomes `List.getLast?`.
-/

namespace BudgetTriage

/-- One bank transaction row (`ALL_TRX.csv` after `load_transactions`):
`date`/`year_month` keys, signed `amount_raw` in cents, posted status and the
two category labels. -/
structure Txn where
  date : Nat
  month : Nat
  amount : Int
  posted : Bool
  detCat : String
  primCat : String
deriving DecidableEq

/-- One `budgets.csv` row `(month, category, allocated)`, amount in cents. -/
structure BudgetRow where
  month : Nat
  category : String
  allocated : Int
deriving DecidableEq

/-- One `transfers.csv` row `(month, from_category, to_category, amount)`. -/
structure TransferRow where
  month : Nat
  fromCat : String
  toCat : String
  amount : Int
deriving DecidableEq

/-- One `balances.csv` row `(month, balance)`. -/
structure BalanceRow where
  month : Nat
  balance : Int
deriving DecidableEq

/-- The inputs of `process_data`: the four tabular sources plus the
configuration constants of the script (`datetime.now()` current month,
`BUDGET_START_DATE`, `INCOME_CATEGORIES`, `HEALTH_EXCLUSIONS`,
`UNTRACKED_EXCLUSIONS`). -/
structure Input where
  txns : List Txn
  budgets : List BudgetRow
  transfers : List TransferRow
  balances : List BalanceRow
  currentMonth : Nat
  startDate : Nat
  incomeCats : List String
  healthExclusions : List String
  untrackedExclusions : List String

/-- `expense = abs(x) if x < 0 else 0` (from `load_transactions`). -/
def Txn.expense (t : Txn) : Int := if t.amount < 0 then -t.amount else 0

/-- `refund = x if x > 0 else 0` (from `load_transactions`). -/
def Txn.refund (t : Txn) : Int := if 0 < t.amount then t.amount else 0

/-- The posted transaction stream `df_trx_all` (only `Status == "posted"`
rows survive `load_transactions`). -/
def postedTxns (inp : Input) : List Txn := inp.txns.filter (·.posted)

/-- The envelope transaction stream `df_trx`:
`df_trx_all[df_trx_all["date"] >= start_dt]`. -/
def envTxns (inp : Input) : List Txn :=
  (postedTxns inp).filter (fun t => decide (inp.startDate ≤ t.date))

/-- `budgeted_cats`: the distinct categories appearing in `budgets.csv`
(the source additionally sorts them for display; the engine only uses
membership, so the deduplicated list suffices). -/
def budgetedCats (inp : Input) : List String := (inp.budgets.map (·.category)).dedup

/-- `cat_mapping.get(cat, "General")`: the primary category of the last
posted transaction carrying the detailed category (a Python `dict` built with
`zip` keeps the last occurrence). -/
def catMapping (inp : Input) (c : String) : String :=
  match ((postedTxns inp).filter (fun t => t.detCat == c)).getLast? with
  | some t => t.primCat
  | none => "General"

/-- The months the walk iterates over, with multiplicity, before
deduplication and sorting: current month, `budgets.csv` months,
`transfers.csv` months and the months of the date-filtered transaction
stream `df_trx`. -/
def monthKeys (inp : Input) : List Nat :=
  inp.currentMonth :: (inp.budgets.map (·.month) ++ inp.transfers.map (·.month) ++
    (envTxns inp).map (·.month))

/-- `months_sorted = sorted(list(months_set))`. -/
def monthsSorted (inp : Input) : List Nat :=
  List.insertionSort (· ≤ ·) (monthKeys inp).dedup

/-- `is_future = m > current_month_str`. -/
def isFuture (inp : Input) (m : Nat) : Bool := inp.currentMonth < m

/-- `m_trx_all`: all posted transactions of month `m` (no start-date filter). -/
def monthTxnsAll (inp : Input) (m : Nat) : List Txn :=
  (postedTxns inp).filter (fun t => t.month == m)

/-- `_inc`: sum of the positive posted amounts of month `m`. -/
def monthInc (inp : Input) (m : Nat) : Int :=
  (((monthTxnsAll inp m).filter (fun t => decide (0 < t.amount))).map (·.amount)).sum

/-- `_exp`: sum of the absolute negative posted amounts of month `m`. -/
def monthExp (inp : Input) (m : Nat) : Int :=
  (((monthTxnsAll inp m).filter (fun t => decide (t.amount < 0))).map (fun t => -t.amount)).sum

/-- `_inc - _exp`, the month's net bank flow. -/
def netFlow (inp : Input) (m : Nat) : Int := monthInc inp m - monthExp inp m

/-- The last `balances.csv` row for month `m` (`bal_row.iloc[-1]["balance"]`),
if any. -/
def snapAt (inp : Input) (m : Nat) : Option Int :=
  ((inp.balances.filter (fun b => b.month == m)).getLast?).map (·.balance)

/-- The first `budgets.csv` row for `(m, cat)` (`v.iloc[0]["allocated"]`),
if any. -/
def budgetRowAt (inp : Input) (m : Nat) (c : String) : Option Int :=
  ((inp.budgets.filter (fun b => b.month == m && b.category == c)).head?).map (·.allocated)

/-- `t_in[c]` for month `m`: transfer amounts flowing into category `c`
(the source only keeps the entry when `c` is budgeted; the engine below only
reads this for budgeted categories). -/
def tIn (inp : Input) (m : Nat) (c : String) : Int :=
  ((inp.transfers.filter (fun r => r.month == m && r.toCat == c)).map (·.amount)).sum

/-- `t_out[c]` for month `m`: transfer amounts flowing out of category `c`. -/
def tOut (inp : Input) (m : Nat) (c : String) : Int :=
  ((inp.transfers.filter (fun r => r.month == m && r.fromCat == c)).map (·.amount)).sum

/-- `spent` for `(m, cat)`: expenses of the date-filtered month-`m`
transactions with that detailed category. -/
def spentAt (inp : Input) (m : Nat) (c : String) : Int :=
  (((envTxns inp).filter (fun t => t.month == m && t.detCat == c)).map Txn.expense).sum

/-- `refunds` for `(m, cat)`. -/
def refundsAt (inp : Input) (m : Nat) (c : String) : Int :=
  (((envTxns inp).filter (fun t => t.month == m && t.detCat == c)).map Txn.refund).sum

/-- The running state carried across the chronological month walk of
`process_data`: `running_allocations` and `rollovers` (total functions
defaulting to `0`, mirroring `.get(cat, 0)`), `last_known_balance`,
`last_snapshot_month` and `cumulative_txns_since_snapshot`. -/
structure WalkState where
  runningAllocations : String → Int
  rollovers : String → Int
  lastKnownBalance : Int
  lastSnapshotMonth : Option Nat
  cumulativeSinceSnapshot : Int

/-- Initial walk state (lines 64–71 of the source). -/
def initState : WalkState :=
  { runningAllocations := fun _ => 0
    rollovers := fun _ => 0
    lastKnownBalance := 0
    lastSnapshotMonth := none
    cumulativeSinceSnapshot := 0 }

/-- The snapshot-anchoring step at the top of the month loop: if
`balances.csv` has a row for `m`, it becomes the new anchor and the
since-snapshot accumulator resets to zero. -/
def stepSnap (inp : Input) (m : Nat) (st : WalkState) : WalkState :=
  match snapAt inp m with
  | some b => { st with lastKnownBalance := b, lastSnapshotMonth := some m,
                        cumulativeSinceSnapshot := 0 }
  | none => st

/-- `alloc_this_month`: the explicit allocation of `(m, cat)` or `0`. -/
def allocThisMonth (inp : Input) (m : Nat) (c : String) : Int :=
  (budgetRowAt inp m c).getD 0

/-- The effective allocation `alloc` the engine uses for `(m, cat)`:
explicitly allocated amounts only for future months, with fallback to the
running last-known allocation for past/current months. -/
def allocUsed (inp : Input) (st : WalkState) (m : Nat) (c : String) : Int :=
  if isFuture inp m then allocThisMonth inp m c
  else
    match budgetRowAt inp m c with
    | some a => a
    | none => st.runningAllocations c

/-- `bal`: the month-`m` available balance of category `c`, given the walk
state entering the month —
`round(roll + alloc + t_in − t_out, 2) − spent + refunds`. -/
def balAt (inp : Input) (st : WalkState) (m : Nat) (c : String) : Int :=
  st.rollovers c + allocUsed inp st m c + tIn inp m c - tOut inp m c
    - spentAt inp m c + refundsAt inp m c

/-- One iteration of the month loop of `process_data`: snapshot anchoring,
accumulation of the month's real net flow (non-future months only), then the
per-category pass updating `running_allocations` (whenever an explicit
budget row exists) and `rollovers` (to the category's new available
balance) for every budgeted category. -/
def monthStep (inp : Input) (st : WalkState) (m : Nat) : WalkState :=
  let st1 := stepSnap inp m st
  let st2 := if isFuture inp m then st1
             else { st1 with cumulativeSinceSnapshot :=
                      st1.cumulativeSinceSnapshot + netFlow inp m }
  { st2 with
    runningAllocations := fun c =>
      if c ∈ budgetedCats inp then
        match budgetRowAt inp m c with
        | some a => a
        | none => st2.runningAllocations c
      else st2.runningAllocations c
    rollovers := fun c =>
      if c ∈ budgetedCats inp then balAt inp st2 m c else st2.rollovers c }

/-- The walk state after processing a given list of months in order. -/
def stateAfterMonths (inp : Input) (ms : List Nat) : WalkState :=
  ms.foldl (monthStep inp) initState

/-- The index months up to and including `m`. -/
def monthsUpTo (inp : Input) (m : Nat) : List Nat :=
  (monthsSorted inp).filter (fun k => decide (k ≤ m))

/-- The walk state entering month `m` (all index months strictly before `m`
processed). -/
def stateBefore (inp : Input) (m : Nat) : WalkState :=
  stateAfterMonths inp ((monthsSorted inp).filter (fun k => decide (k < m)))

/-- The walk state at the end of month `m`'s iteration. -/
def stateThrough (inp : Input) (m : Nat) : WalkState :=
  stateAfterMonths inp (monthsUpTo inp m)

/-- `available[c, m]`: the available balance of category `c` as of the end of
month `m` of the walk (`rollovers[cat]` holds exactly the month's computed
`bal` after the month is processed). -/
def available (inp : Input) (c : String) (m : Nat) : Int :=
  (stateThrough inp m).rollovers c

/-- `live_bank_balance` for month `m`:
`round(last_known_balance + _inc − _exp, 2)`, where `last_known_balance` has
already absorbed a month-`m` snapshot if one exists. -/
def liveBank (inp : Input) (m : Nat) : Int :=
  (stateThrough inp m).lastKnownBalance + netFlow inp m

/-- The exposed `txns_since_snapshot` summary value for month `m`. -/
def cumAt (inp : Input) (m : Nat) : Int :=
  (stateThrough inp m).cumulativeSinceSnapshot

/-- `total_enveloped`: sum of the available balances of all budgeted
categories at month `m`. -/
def totalEnveloped (inp : Input) (m : Nat) : Int :=
  ((budgetedCats inp).map (fun c => available inp c m)).sum

/-- `posted_income` for month `m`: positive posted amounts whose primary or
detailed category matches the configured income categories; with no income
categories configured, all positive posted amounts. -/
def postedIncome (inp : Input) (m : Nat) : Int :=
  if inp.incomeCats = [] then
    (((monthTxnsAll inp m).filter (fun t => decide (0 < t.amount))).map (·.amount)).sum
  else
    (((monthTxnsAll inp m).filter (fun t =>
        decide (0 < t.amount) &&
          (decide (t.primCat ∈ inp.incomeCats) || decide (t.detCat ∈ inp.incomeCats)))).map
      (·.amount)).sum

/-- `other_income` for month `m`: positive posted amounts matching neither
the income categories nor the untracked exclusions (0 when no income
categories are configured). -/
def otherIncome (inp : Input) (m : Nat) : Int :=
  if inp.incomeCats = [] then 0
  else
    (((monthTxnsAll inp m).filter (fun t =>
        decide (0 < t.amount) &&
          !(decide (t.primCat ∈ inp.incomeCats ++ inp.untrackedExclusions) ||
            decide (t.detCat ∈ inp.incomeCats ++ inp.untrackedExclusions)))).map
      (·.amount)).sum

/-- The transactions feeding the uncategorized-spend calculation for month
`m`: date-filtered month-`m` transactions with positive expense whose
detailed category is not budgeted, with neither the detailed nor the
primary category in the untracked exclusions. -/
def uncatTxns (inp : Input) (m : Nat) : List Txn :=
  (envTxns inp).filter (fun t =>
    t.month == m && decide (0 < t.expense) &&
      !decide (t.detCat ∈ budgetedCats inp) &&
      !decide (t.detCat ∈ inp.untrackedExclusions) &&
      !decide (t.primCat ∈ inp.untrackedExclusions))

/-- `uncategorized_spend` for month `m`. -/
def uncategorizedSpend (inp : Input) (m : Nat) : Int :=
  ((uncatTxns inp m).map Txn.expense).sum

/-- The month of the most recent `balances.csv` snapshot at an index month
`≤ m`, read straight off the filtered index (independent
re-characterization of the walk's carried anchor). -/
def latestSnapMonth (inp : Input) (m : Nat) : Option Nat :=
  ((monthsUpTo inp m).filter (fun k => (snapAt inp k).isSome)).getLast?

/-- The anchor balance for month `m` as the spec describes it: the balance
of the most recent snapshot-bearing index month `≤ m`, or `0` if none. -/
def latestSnapBal (inp : Input) (m : Nat) : Int :=
  match latestSnapMonth inp m with
  | some k => (snapAt inp k).getD 0
  | none => 0

/-! `smartRebalance` (the rebalancing advisor): operates on the per-month
category entries (`name`, `available`) after the engine has run, excluding
the configured health exclusions and recurring envelopes. -/

/-- A per-month envelope entry as consumed by `smartRebalance`
(`cat.name`, `cat.available` in cents). -/
structure Env where
  name : String
  avail : Int
deriving DecidableEq

/-- A proposed transfer `{from, to, amount}` (month and note omitted —
constant for one invocation). -/
structure Move where
  src : String
  dst : String
  amount : Int
deriving DecidableEq

/-- The underfunded collection pass: entries with `available < -0.01`
(cents: `< -1`) that are not excluded, keyed by `need = |available|`. -/
def collectUnderfunded (excluded : List String) (envs : List Env) : List (String × Int) :=
  (envs.filter (fun e => !decide (e.name ∈ excluded) && decide (e.avail < -1))).map
    (fun e => (e.name, -e.avail))

/-- The surplus collection pass: non-excluded entries with
`available > 0.01` (cents: `> 1`), keyed by `avail`. -/
def collectSurplus (excluded : List String) (envs : List Env) : List (String × Int) :=
  (envs.filter (fun e =>
      !decide (e.name ∈ excluded) && !decide (e.avail < -1) && decide (1 < e.avail))).map
    (fun e => (e.name, e.avail))

/-- The inner surplus-drawing loop for one underfunded envelope `u`:
walks the remaining surplus list in order, skipping depleted entries
(`avail < 0.01`), moving `min(avail, remaining)` otherwise and stopping once
the remaining need drops below one cent.  Returns the recorded moves and the
updated surplus list (order preserved, as the source mutates in place). -/
def drawInner (uName : String) : Int → List (String × Int) → List Move × List (String × Int)
  | _, [] => ([], [])
  | remaining, s :: rest =>
    if s.2 < 1 ∨ remaining < 1 then
      let (ms, rest') := drawInner uName remaining rest
      (ms, s :: rest')
    else
      let move := min s.2 remaining
      let s' := (s.1, s.2 - move)
      let rem' := remaining - move
      if rem' < 1 then ([⟨s.1, uName, move⟩], s' :: rest)
      else
        let (ms, rest') := drawInner uName rem' rest
        (⟨s.1, uName, move⟩ :: ms, s' :: rest')

/-- The outer loop of `smartRebalance`: underfunded envelopes in order, each
drawing from the (shared, mutated) surplus list. -/
def greedyOuter : List (String × Int) → List (String × Int) → List Move
  | [], _ => []
  | u :: us, sl =>
    let (ms, sl') := drawInner u.1 u.2 sl
    ms ++ greedyOuter us sl'

/-- `smartRebalance`: collect both sides, bail out with no moves when either
is empty, sort underfunded by descending need and surplus by descending
amount (JS `Array.prototype.sort` is stable; `List.mergeSort` matches), then
run the greedy matching. -/
def smartRebalance (excluded : List String) (envs : List Env) : List Move :=
  let underfunded := collectUnderfunded excluded envs
  let surplus := collectSurplus excluded envs
  if underfunded.isEmpty || surplus.isEmpty then []
  else
    greedyOuter (List.insertionSort (fun a b => b.2 ≤ a.2) underfunded)
      (List.insertionSort (fun a b => b.2 ≤ a.2) surplus)

/-- Total amount the proposal list moves into envelope `c`. -/
def movesTo (ms : List Move) (c : String) : Int :=
  ((ms.filter (fun mv => mv.dst == c)).map (·.amount)).sum

/-- Total amount the proposal list draws out of envelope `c`. -/
def movesFrom (ms : List Move) (c : String) : Int :=
  ((ms.filter (fun mv => mv.src == c)).map (·.amount)).sum

/-! ### Concrete inputs used to instantiate and to refute claims -/

/-- Category `A` allocated `300.00` in month 1; month 2 is the current month
with no budget row, no transfers and no transactions. -/
def exC1 : Input :=
  { txns := [], budgets := [⟨1, "A", 30000⟩], transfers := [], balances := []
    currentMonth := 2, startDate := 0, incomeCats := ["Wages"]
    healthExclusions := [], untrackedExclusions := [] }

/-- Category `A` with an explicit zero allocation in month 1 and a `25.00`
expense there; month 2 is the current month with no activity. -/
def exW1 : Input :=
  { txns := [⟨5, 1, -2500, true, "A", "General"⟩]
    budgets := [⟨1, "A", 0⟩], transfers := [], balances := []
    currentMonth := 2, startDate := 0, incomeCats := ["Wages"]
    healthExclusions := [], untrackedExclusions := [] }

/-- A `1000.00` snapshot in month 1, income `100.00` in month 2 and `50.00`
in month 3 (the current month); months 1–3 are kept in the index by zero
budget rows. -/
def exC2 : Input :=
  { txns := [⟨10, 2, 10000, true, "Misc", "Misc"⟩, ⟨20, 3, 5000, true, "Misc", "Misc"⟩]
    budgets := [⟨1, "G", 0⟩, ⟨2, "G", 0⟩, ⟨3, "G", 0⟩], transfers := []
    balances := [⟨1, 100000⟩]
    currentMonth := 3, startDate := 0, incomeCats := ["Wages"]
    healthExclusions := [], untrackedExclusions := [] }

/-- Category `C` allocated `300.00` in month 1 and never again; the current
month is 3. -/
def exW3 : Input :=
  { txns := [], budgets := [⟨1, "C", 30000⟩], transfers := [], balances := []
    currentMonth := 3, startDate := 0, incomeCats := ["Wages"]
    healthExclusions := [], untrackedExclusions := [] }

/-- The spec's rebalancing scenario: underfunded `X: −50.00`, `Y: −30.00`;
surplus `Z: 40.00`, `W: 45.00`. -/
def exEnvs : List Env :=
  [⟨"X", -5000⟩, ⟨"Y", -3000⟩, ⟨"Z", 4000⟩, ⟨"W", 4500⟩]

/-- Categories `A` (`100.00`) and `B` (`50.00`) budgeted in month 1, the
current month; the transfer under test is prepended by the claim. -/
def exW5 : Input :=
  { txns := [], budgets := [⟨1, "A", 10000⟩, ⟨1, "B", 5000⟩], transfers := []
    balances := [], currentMonth := 1, startDate := 0, incomeCats := ["Wages"]
    healthExclusions := [], untrackedExclusions := [] }

/-- Snapshots in months 1 (`1000.00`) and 3 (`500.00`), income `70.00` in
month 1 and `20.00` in month 2; the current month is 3. -/
def exC6 : Input :=
  { txns := [⟨10, 1, 7000, true, "Misc", "Misc"⟩, ⟨20, 2, 2000, true, "Misc", "Misc"⟩]
    budgets := [⟨1, "G", 0⟩, ⟨2, "G", 0⟩, ⟨3, "G", 0⟩], transfers := []
    balances := [⟨1, 100000⟩, ⟨3, 50000⟩]
    currentMonth := 3, startDate := 0, incomeCats := ["Wages"]
    healthExclusions := [], untrackedExclusions := [] }

/-- One budget row naming category `A`; the configuration sets are fixed. -/
def exC7a : Input :=
  { txns := [], budgets := [⟨1, "A", 10000⟩], transfers := [], balances := []
    currentMonth := 1, startDate := 0, incomeCats := ["Wages"]
    healthExclusions := ["Travel"], untrackedExclusions := ["Transfers"] }

/-- Identical to `exC7a` except that the budget rows are gone; every
configuration set is unchanged. -/
def exC7b : Input :=
  { txns := [], budgets := [], transfers := [], balances := []
    currentMonth := 1, startDate := 0, incomeCats := ["Wages"]
    healthExclusions := ["Travel"], untrackedExclusions := ["Transfers"] }

/-- A posted transaction of month 5 dated before the configured start date
(day 0 against start day 10); the current month is 1 and nothing else
references month 5. -/
def exC8 : Input :=
  { txns := [⟨0, 5, 10000, true, "Misc", "Misc"⟩], budgets := [], transfers := []
    balances := [], currentMonth := 1, startDate := 10, incomeCats := ["Wages"]
    healthExclusions := [], untrackedExclusions := [] }

/-- Only category `A` is budgeted (`100.00`, month 1, the current month);
`B` is untracked. -/
def exW9 : Input :=
  { txns := [], budgets := [⟨1, "A", 10000⟩], transfers := [], balances := []
    currentMonth := 1, startDate := 0, incomeCats := ["Wages"]
    healthExclusions := [], untrackedExclusions := [] }

/-- Category `G` budgeted `100.00` in month 1 (the current month) with a
`20.00` expense dated after the start date (day 15 against start day 10);
the pre-start transaction under test is prepended by the claim. -/
def exW10 : Input :=
  { txns := [⟨15, 1, -2000, true, "G", "General"⟩]
    budgets := [⟨1, "G", 10000⟩], transfers := [], balances := []
    currentMonth := 1, startDate := 10, incomeCats := ["Wages"]
    healthExclusions := [], untrackedExclusions := [] }

/-! ### Basic facts about the month walk -/

theorem stepSnap_rollovers (inp : Input) (m : Nat) (st : WalkState) :
    (stepSnap inp m st).rollovers = st.rollovers := by
  unfold stepSnap; cases snapAt inp m <;> rfl

theorem stepSnap_runningAllocations (inp : Input) (m : Nat) (st : WalkState) :
    (stepSnap inp m st).runningAllocations = st.runningAllocations := by
  unfold stepSnap; cases snapAt inp m <;> rfl

theorem balAt_state_congr (inp : Input) (m : Nat) {st st' : WalkState}
    (h1 : st'.rollovers = st.rollovers)
    (h2 : st'.runningAllocations = st.runningAllocations) (c : String) :
    balAt inp st' m c = balAt inp st m c := by
  unfold balAt allocUsed
  rw [h1, h2]

theorem monthStep_rollovers (inp : Input) (st : WalkState) (m : Nat) (c : String) :
    (monthStep inp st m).rollovers c =
      if c ∈ budgetedCats inp then balAt inp st m c else st.rollovers c := by
  unfold monthStep
  by_cases hf : isFuture inp m = true <;>
    simp only [hf, if_true, if_false, Bool.false_eq_true] <;>
    by_cases hb : c ∈ budgetedCats inp <;> simp only [hb, if_true, if_false] <;>
    first
      | exact balAt_state_congr inp m (stepSnap_rollovers inp m st)
          (stepSnap_runningAllocations inp m st) c
      | exact congrFun (stepSnap_rollovers inp m st) c

theorem monthStep_runningAllocations (inp : Input) (st : WalkState) (m : Nat) (c : String) :
    (monthStep inp st m).runningAllocations c =
      if c ∈ budgetedCats inp then (budgetRowAt inp m c).getD (st.runningAllocations c)
      else st.runningAllocations c := by
  unfold monthStep
  by_cases hf : isFuture inp m = true <;>
    simp only [hf, if_true, if_false, Bool.false_eq_true] <;>
  · show (if c ∈ budgetedCats inp then
        (match budgetRowAt inp m c with
          | some a => a
          | none => (stepSnap inp m st).runningAllocations c) else _) = _
    rw [stepSnap_runningAllocations]
    cases budgetRowAt inp m c <;> rfl

theorem monthStep_lastKnownBalance (inp : Input) (st : WalkState) (m : Nat) :
    (monthStep inp st m).lastKnownBalance = (snapAt inp m).getD st.lastKnownBalance := by
  unfold monthStep stepSnap
  by_cases hf : isFuture inp m = true <;>
    simp only [hf, if_true, if_false, Bool.false_eq_true] <;> cases snapAt inp m <;> rfl

theorem monthStep_lastSnapshotMonth (inp : Input) (st : WalkState) (m : Nat) :
    (monthStep inp st m).lastSnapshotMonth =
      if (snapAt inp m).isSome then some m else st.lastSnapshotMonth := by
  unfold monthStep stepSnap
  by_cases hf : isFuture inp m = true <;>
    simp only [hf, if_true, if_false, Bool.false_eq_true] <;> cases snapAt inp m <;> rfl

theorem monthStep_cum (inp : Input) (st : WalkState) (m : Nat) :
    (monthStep inp st m).cumulativeSinceSnapshot =
      (if (snapAt inp m).isSome then 0 else st.cumulativeSinceSnapshot) +
        (if isFuture inp m then 0 else netFlow inp m) := by
  unfold monthStep stepSnap
  by_cases hf : isFuture inp m = true <;>
    simp only [hf, if_true, if_false, Bool.false_eq_true] <;> cases snapAt inp m <;> simp

theorem stateAfterMonths_concat (inp : Input) (ms : List Nat) (m : Nat) :
    stateAfterMonths inp (ms ++ [m]) = monthStep inp (stateAfterMonths inp ms) m :=
  List.foldl_concat _ _ _ _

/-! ### The month index -/

theorem mem_monthsSorted (inp : Input) (m : Nat) :
    m ∈ monthsSorted inp ↔ m ∈ monthKeys inp := by
  unfold monthsSorted
  rw [List.mem_insertionSort, List.mem_dedup]

theorem monthsSorted_sorted_le (inp : Input) :
    List.Sorted (· ≤ ·) (monthsSorted inp) :=
  List.sorted_insertionSort _ _

theorem monthsSorted_nodup (inp : Input) : (monthsSorted inp).Nodup :=
  ((List.perm_insertionSort _ _).nodup_iff).mpr (List.nodup_dedup _)

theorem monthsSorted_sorted_lt (inp : Input) :
    List.Sorted (· < ·) (monthsSorted inp) :=
  List.Sorted.lt_of_le (monthsSorted_sorted_le inp) (monthsSorted_nodup inp)

/-- Two inputs whose raw month-key lists have the same members walk the
same sorted month index. -/
theorem monthsSorted_congr {inp inp' : Input}
    (h : ∀ k, k ∈ monthKeys inp' ↔ k ∈ monthKeys inp) :
    monthsSorted inp' = monthsSorted inp := by
  refine List.eq_of_perm_of_sorted ?_ (monthsSorted_sorted_le inp')
    (monthsSorted_sorted_le inp)
  refine ((List.perm_insertionSort _ _).trans ?_).trans
    (List.perm_insertionSort _ _).symm
  refine List.perm_of_nodup_nodup_toFinset_eq (List.nodup_dedup _) (List.nodup_dedup _) ?_
  ext k
  simp only [List.mem_toFinset, List.mem_dedup]
  exact h k

/-! ### Splitting a sorted month list at a pivot -/

theorem sorted_filter_le_eq {l : List Nat} (hs : List.Sorted (· < ·) l) {m : Nat}
    (hm : m ∈ l) :
    l.filter (fun k => decide (k ≤ m)) = l.filter (fun k => decide (k < m)) ++ [m] := by
  induction l with
  | nil => cases hm
  | cons a t ih =>
    rcases List.mem_cons.mp hm with heq | hmt
    · subst heq
      have ht : ∀ b ∈ t, m < b := fun b hb => (List.sorted_cons.mp hs).1 b hb
      have h1 : t.filter (fun k => decide (k ≤ m)) = [] :=
        List.filter_eq_nil_iff.mpr (fun b hb => by simp [Nat.not_le.mpr (ht b hb)])
      have h2 : t.filter (fun k => decide (k < m)) = [] :=
        List.filter_eq_nil_iff.mpr (fun b hb => by
          simp [Nat.not_lt.mpr (Nat.le_of_lt (ht b hb))])
      simp [List.filter_cons, h1, h2]
    · have ha : a ≤ m := Nat.le_of_lt ((List.sorted_cons.mp hs).1 m hmt)
      have ih' := ih (List.sorted_cons.mp hs).2 hmt
      by_cases hlt : a < m
      · simp [List.filter_cons, ha, hlt, ih']
      · have heq : a = m := Nat.le_antisymm ha (Nat.not_lt.mp hlt)
        subst heq
        exact absurd ((List.sorted_cons.mp hs).1 a hmt) (lt_irrefl a)

theorem monthsUpTo_split (inp : Input) {m : Nat} (hm : m ∈ monthsSorted inp) :
    monthsUpTo inp m = (monthsSorted inp).filter (fun k => decide (k < m)) ++ [m] :=
  sorted_filter_le_eq (monthsSorted_sorted_lt inp) hm

theorem stateThrough_eq (inp : Input) {m : Nat} (hm : m ∈ monthsSorted inp) :
    stateThrough inp m = monthStep inp (stateBefore inp m) m := by
  unfold stateThrough stateBefore
  rw [monthsUpTo_split inp hm, stateAfterMonths_concat]

/-- For positive `m`, the state at the end of month `m - 1` is the state
entering month `m` (the index months `≤ m - 1` are exactly those `< m`). -/
theorem stateThrough_pred (inp : Input) {m : Nat} (hm : 1 ≤ m) :
    stateThrough inp (m - 1) = stateBefore inp m := by
  unfold stateThrough stateBefore monthsUpTo
  congr 1
  apply List.filter_congr
  intro k _
  have : k ≤ m - 1 ↔ k < m := by omega
  simp [this]

/-! ### Scalar components of the walk commute with simple folds -/

theorem lastKnownBalance_fold (inp : Input) (ms : List Nat) :
    ∀ st : WalkState, (ms.foldl (monthStep inp) st).lastKnownBalance =
      ms.foldl (fun b k => (snapAt inp k).getD b) st.lastKnownBalance := by
  induction ms with
  | nil => intro st; rfl
  | cons m t ih =>
    intro st
    simp only [List.foldl_cons]
    rw [ih, monthStep_lastKnownBalance]

theorem cum_fold (inp : Input) (ms : List Nat) :
    ∀ st : WalkState, (ms.foldl (monthStep inp) st).cumulativeSinceSnapshot =
      ms.foldl (fun c k => (if (snapAt inp k).isSome then 0 else c) +
        (if isFuture inp k then 0 else netFlow inp k)) st.cumulativeSinceSnapshot := by
  induction ms with
  | nil => intro st; rfl
  | cons m t ih =>
    intro st
    simp only [List.foldl_cons]
    rw [ih, monthStep_cum]

theorem runningAllocations_fold (inp : Input) (ms : List Nat) {c : String}
    (hc : c ∈ budgetedCats inp) :
    ∀ st : WalkState, (ms.foldl (monthStep inp) st).runningAllocations c =
      ms.foldl (fun v k => (budgetRowAt inp k c).getD v) (st.runningAllocations c) := by
  induction ms with
  | nil => intro st; rfl
  | cons m t ih =>
    intro st
    simp only [List.foldl_cons]
    rw [ih, monthStep_runningAllocations, if_pos hc]

/-- A fold that only replaces the accumulator at hits computes the last hit:
the generic shape behind the snapshot anchor and the running allocations. -/
theorem foldl_getD_eq_getLast (f : Nat → Option Int) (l : List Nat) :
    ∀ b : Int, l.foldl (fun v k => (f k).getD v) b =
      match (l.filter (fun k => (f k).isSome)).getLast? with
      | some k => (f k).getD 0
      | none => b := by
  induction l with
  | nil => intro b; rfl
  | cons a t ih =>
    intro b
    simp only [List.foldl_cons, List.filter_cons]
    cases hfa : f a with
    | none => simp only [hfa, Option.isSome_none, Bool.false_eq_true, if_false,
        Option.getD_none]; exact ih b
    | some v =>
      simp only [hfa, Option.isSome_some, if_true, Option.getD_some]
      rw [ih v]
      cases hft : (t.filter (fun k => (f k).isSome)).getLast? with
      | none =>
        rcases ht : t.filter (fun k => (f k).isSome) with _ | ⟨x, xs⟩
        · simp [ht, hfa]
        · rw [ht] at hft; simp at hft
      | some k =>
        rcases ht : t.filter (fun k => (f k).isSome) with _ | ⟨x, xs⟩
        · rw [ht] at hft; simp at hft
        · rw [ht] at hft
          simp only [List.getLast?_cons_cons, ht, hft]

/-- The carried `last_known_balance` at the end of month `m` is exactly the
latest snapshot balance at or before `m`. -/
theorem lastKnownBalance_eq_latestSnapBal (inp : Input) (m : Nat) :
    (stateThrough inp m).lastKnownBalance = latestSnapBal inp m := by
  unfold stateThrough stateAfterMonths latestSnapBal latestSnapMonth
  rw [lastKnownBalance_fold, foldl_getD_eq_getLast (fun k => snapAt inp k)]
  rfl

/-! ### Congruence: inputs agreeing on a month's data step identically -/

/-- All the data of month `m` that `monthStep` can observe. -/
structure MonthDataEq (inp' inp : Input) (m : Nat) : Prop where
  cats : budgetedCats inp' = budgetedCats inp
  fut : isFuture inp' m = isFuture inp m
  snap : snapAt inp' m = snapAt inp m
  flow : netFlow inp' m = netFlow inp m
  row : ∀ c, budgetRowAt inp' m c = budgetRowAt inp m c
  tin : ∀ c, tIn inp' m c = tIn inp m c
  tout : ∀ c, tOut inp' m c = tOut inp m c
  spent : ∀ c, spentAt inp' m c = spentAt inp m c
  refunds : ∀ c, refundsAt inp' m c = refundsAt inp m c

theorem WalkState.ext' {st st' : WalkState}
    (h1 : st.runningAllocations = st'.runningAllocations)
    (h2 : st.rollovers = st'.rollovers)
    (h3 : st.lastKnownBalance = st'.lastKnownBalance)
    (h4 : st.lastSnapshotMonth = st'.lastSnapshotMonth)
    (h5 : st.cumulativeSinceSnapshot = st'.cumulativeSinceSnapshot) : st = st' := by
  cases st; cases st'
  simp only at h1 h2 h3 h4 h5
  subst h1 h2 h3 h4 h5
  rfl

theorem balAt_congr {inp' inp : Input} {m : Nat} (h : MonthDataEq inp' inp m)
    {st st' : WalkState} (hr : st'.rollovers = st.rollovers)
    (ha : st'.runningAllocations = st.runningAllocations) (c : String) :
    balAt inp' st' m c = balAt inp st m c := by
  unfold balAt allocUsed allocThisMonth
  rw [hr, ha, h.fut, h.row, h.tin, h.tout, h.spent, h.refunds]

theorem monthStep_congr {inp' inp : Input} {m : Nat} (h : MonthDataEq inp' inp m)
    (st : WalkState) : monthStep inp' st m = monthStep inp st m := by
  refine WalkState.ext' ?_ ?_ ?_ ?_ ?_
  · funext c
    rw [monthStep_runningAllocations, monthStep_runningAllocations, h.cats, h.row]
  · funext c
    rw [monthStep_rollovers, monthStep_rollovers, h.cats,
      balAt_congr h rfl rfl c]
  · rw [monthStep_lastKnownBalance, monthStep_lastKnownBalance, h.snap]
  · rw [monthStep_lastSnapshotMonth, monthStep_lastSnapshotMonth, h.snap]
  · rw [monthStep_cum, monthStep_cum, h.snap, h.fut, h.flow]

theorem stateAfterMonths_congr {inp' inp : Input} {ms : List Nat}
    (h : ∀ m ∈ ms, MonthDataEq inp' inp m) :
    stateAfterMonths inp' ms = stateAfterMonths inp ms := by
  unfold stateAfterMonths
  suffices hgen : ∀ st, ms.foldl (monthStep inp') st = ms.foldl (monthStep inp) st from
    hgen initState
  induction ms with
  | nil => intro st; rfl
  | cons m t ih =>
    intro st
    simp only [List.foldl_cons]
    rw [monthStep_congr (h m (List.mem_cons_self m t)) st]
    exact ih (fun k hk => h k (List.mem_cons_of_mem m hk)) _

/-- Agreement of two walk states on everything except the since-snapshot
accumulator: the envelope-relevant projection.  The accumulator feeds
nothing else, so this agreement is preserved by the walk even when the two
inputs disagree on net bank flow. -/
structure EnvAgree (st' st : WalkState) : Prop where
  runAlloc : st'.runningAllocations = st.runningAllocations
  roll : st'.rollovers = st.rollovers
  lastBal : st'.lastKnownBalance = st.lastKnownBalance
  snapMonth : st'.lastSnapshotMonth = st.lastSnapshotMonth

/-- As `MonthDataEq` but without requiring equal net flow. -/
structure EnvDataEq (inp' inp : Input) (m : Nat) : Prop where
  cats : budgetedCats inp' = budgetedCats inp
  fut : isFuture inp' m = isFuture inp m
  snap : snapAt inp' m = snapAt inp m
  row : ∀ c, budgetRowAt inp' m c = budgetRowAt inp m c
  tin : ∀ c, tIn inp' m c = tIn inp m c
  tout : ∀ c, tOut inp' m c = tOut inp m c
  spent : ∀ c, spentAt inp' m c = spentAt inp m c
  refunds : ∀ c, refundsAt inp' m c = refundsAt inp m c

theorem balAt_congr_env {inp' inp : Input} {m : Nat} (h : EnvDataEq inp' inp m)
    {st st' : WalkState} (hr : st'.rollovers = st.rollovers)
    (ha : st'.runningAllocations = st.runningAllocations) (c : String) :
    balAt inp' st' m c = balAt inp st m c := by
  unfold balAt allocUsed allocThisMonth
  rw [hr, ha, h.fut, h.row, h.tin, h.tout, h.spent, h.refunds]

theorem monthStep_envAgree {inp' inp : Input} {m : Nat} (h : EnvDataEq inp' inp m)
    {st' st : WalkState} (hst : EnvAgree st' st) :
    EnvAgree (monthStep inp' st' m) (monthStep inp st m) := by
  refine ⟨?_, ?_, ?_, ?_⟩
  · funext c
    rw [monthStep_runningAllocations, monthStep_runningAllocations, h.cats, h.row,
      hst.runAlloc]
  · funext c
    rw [monthStep_rollovers, monthStep_rollovers, h.cats,
      balAt_congr_env h hst.roll hst.runAlloc c, hst.roll]
  · rw [monthStep_lastKnownBalance, monthStep_lastKnownBalance, h.snap, hst.lastBal]
  · rw [monthStep_lastSnapshotMonth, monthStep_lastSnapshotMonth, h.snap, hst.snapMonth]

theorem stateAfterMonths_envAgree {inp' inp : Input} {ms : List Nat}
    (h : ∀ m ∈ ms, EnvDataEq inp' inp m) :
    EnvAgree (stateAfterMonths inp' ms) (stateAfterMonths inp ms) := by
  unfold stateAfterMonths
  suffices hgen : ∀ st' st, EnvAgree st' st →
      EnvAgree (ms.foldl (monthStep inp') st') (ms.foldl (monthStep inp) st) from
    hgen _ _ ⟨rfl, rfl, rfl, rfl⟩
  induction ms with
  | nil => intro _ _ hst; exact hst
  | cons m t ih =>
    intro st' st hst
    simp only [List.foldl_cons]
    exact ih (fun k hk => h k (List.mem_cons_of_mem m hk))
      _ _ (monthStep_envAgree (h m (List.mem_cons_self m t)) hst)

/-! ### Effect of one extra transfer row -/

theorem tIn_cons (inp : Input) (row : TransferRow) (m : Nat) (c : String) :
    tIn {inp with transfers := row :: inp.transfers} m c =
      tIn inp m c + (if row.month = m ∧ row.toCat = c then row.amount else 0) := by
  unfold tIn
  show ((List.filter _ (row :: inp.transfers)).map _).sum = _
  rw [List.filter_cons]
  by_cases h : row.month = m ∧ row.toCat = c
  · have hb : (row.month == m && row.toCat == c) = true := by simp [h.1, h.2]
    simp only [hb, if_true, List.map_cons, List.sum_cons, if_pos h]
    omega
  · have hb : (row.month == m && row.toCat == c) = false := by
      simp only [Bool.and_eq_false_iff, beq_eq_false_iff_ne, ne_eq]
      tauto
    simp only [hb, Bool.false_eq_true, if_false, if_neg h, add_zero]

theorem tOut_cons (inp : Input) (row : TransferRow) (m : Nat) (c : String) :
    tOut {inp with transfers := row :: inp.transfers} m c =
      tOut inp m c + (if row.month = m ∧ row.fromCat = c then row.amount else 0) := by
  unfold tOut
  show ((List.filter _ (row :: inp.transfers)).map _).sum = _
  rw [List.filter_cons]
  by_cases h : row.month = m ∧ row.fromCat = c
  · have hb : (row.month == m && row.fromCat == c) = true := by simp [h.1, h.2]
    simp only [hb, if_true, List.map_cons, List.sum_cons, if_pos h]
    omega
  · have hb : (row.month == m && row.fromCat == c) = false := by
      simp only [Bool.and_eq_false_iff, beq_eq_false_iff_ne, ne_eq]
      tauto
    simp only [hb, Bool.false_eq_true, if_false, if_neg h, add_zero]

theorem monthDataEq_transfer_cons (inp : Input) (row : TransferRow) {m : Nat}
    (hm : m ≠ row.month) :
    MonthDataEq {inp with transfers := row :: inp.transfers} inp m := by
  refine ⟨rfl, rfl, rfl, rfl, fun c => rfl, fun c => ?_, fun c => ?_, fun c => rfl,
    fun c => rfl⟩
  · rw [tIn_cons, if_neg (fun hand => hm hand.1.symm), add_zero]
  · rw [tOut_cons, if_neg (fun hand => hm hand.1.symm), add_zero]

theorem monthKeys_transfer_cons (inp : Input) (row : TransferRow) (k : Nat) :
    k ∈ monthKeys {inp with transfers := row :: inp.transfers} ↔
      k = row.month ∨ k ∈ monthKeys inp := by
  show k ∈ _ :: (_ ++ List.map _ (row :: _) ++ _) ↔ _
  simp only [monthKeys, List.map_cons, List.mem_cons, List.mem_append]
  tauto

theorem monthsSorted_transfer_cons (inp : Input) (row : TransferRow)
    (hm : row.month ∈ monthsSorted inp) :
    monthsSorted {inp with transfers := row :: inp.transfers} = monthsSorted inp := by
  have hk : row.month ∈ monthKeys inp := (mem_monthsSorted inp row.month).mp hm
  refine monthsSorted_congr (fun k => ?_)
  rw [monthKeys_transfer_cons]
  constructor
  · rintro (rfl | h)
    · exact hk
    · exact h
  · exact Or.inr

/-- Conservation at the level of one category: prepending a transfer row
changes that category's month-`m` available balance by `+amount` when it is
the receiving category and `−amount` when it is the sending one, provided
the row's month is already walked and the category is budgeted. -/
theorem available_transfer_delta (inp : Input) (row : TransferRow)
    (hm : row.month ∈ monthsSorted inp) {c : String} (hc : c ∈ budgetedCats inp) :
    available {inp with transfers := row :: inp.transfers} c row.month =
      available inp c row.month + (if row.toCat = c then row.amount else 0)
        - (if row.fromCat = c then row.amount else 0) := by
  set inp' := {inp with transfers := row :: inp.transfers} with hinp'
  have hms : monthsSorted inp' = monthsSorted inp := monthsSorted_transfer_cons inp row hm
  have hm' : row.month ∈ monthsSorted inp' := by rw [hms]; exact hm
  have hpre : stateBefore inp' row.month = stateBefore inp row.month := by
    unfold stateBefore
    rw [hms]
    exact stateAfterMonths_congr (fun k hk => by
      have hklt : k < row.month := by
        have := List.of_mem_filter hk
        simpa using this
      exact monthDataEq_transfer_cons inp row (Nat.ne_of_lt hklt))
  have havail' : available inp' c row.month = balAt inp' (stateBefore inp row.month)
      row.month c := by
    unfold available
    rw [stateThrough_eq inp' hm', monthStep_rollovers, hpre,
      if_pos (show c ∈ budgetedCats inp' from hc)]
  have havail : available inp c row.month = balAt inp (stateBefore inp row.month)
      row.month c := by
    unfold available
    rw [stateThrough_eq inp hm, monthStep_rollovers, if_pos hc]
  rw [havail', havail]
  unfold balAt allocUsed allocThisMonth
  rw [show tIn inp' row.month c = tIn inp row.month c +
        (if row.toCat = c then row.amount else 0) by
      rw [tIn_cons]
      congr 1
      by_cases h : row.toCat = c <;> simp [h],
    show tOut inp' row.month c = tOut inp row.month c +
        (if row.fromCat = c then row.amount else 0) by
      rw [tOut_cons]
      congr 1
      by_cases h : row.fromCat = c <;> simp [h]]
  have hfut : isFuture inp' row.month = isFuture inp row.month := rfl
  have hrow : budgetRowAt inp' row.month c = budgetRowAt inp row.month c := rfl
  have hsp : spentAt inp' row.month c = spentAt inp row.month c := rfl
  have hrf : refundsAt inp' row.month c = refundsAt inp row.month c := rfl
  rw [hfut, hrow, hsp, hrf]
  omega

/-- Summing a per-element delta that fires at exactly one list element. -/
theorem sum_map_add_ite {l : List String} (hl : l.Nodup) (f : String → Int)
    (a : String) (d : Int) :
    (l.map (fun c => f c + if a = c then d else 0)).sum =
      (l.map f).sum + (if a ∈ l then d else 0) := by
  induction l with
  | nil => simp
  | cons x t ih =>
    have ht := (List.nodup_cons.mp hl).2
    have hxt := (List.nodup_cons.mp hl).1
    simp only [List.map_cons, List.sum_cons, ih ht]
    by_cases hax : a = x
    · subst hax
      have : a ∉ t := hxt
      simp [this]
      omega
    · simp only [if_neg hax, List.mem_cons]
      by_cases hat : a ∈ t
      · simp only [if_pos hat, if_pos (Or.inr hat : a = x ∨ a ∈ t)]
        omega
      · simp only [if_neg hat, if_neg (fun h => h.elim hax hat : ¬(a = x ∨ a ∈ t))]
        omega

/-! ### Effect of one extra posted transaction dated before the start date -/

theorem envTxns_cons_preStart (inp : Input) (tx : Txn) (hd : tx.date < inp.startDate) :
    envTxns {inp with txns := tx :: inp.txns} = envTxns inp := by
  unfold envTxns postedTxns
  show List.filter _ (List.filter _ (tx :: inp.txns)) = _
  rw [List.filter_cons]
  cases hp : tx.posted
  · rfl
  · simp only [if_true]
    rw [List.filter_cons]
    simp [Nat.not_le.mpr hd]

theorem monthsSorted_txn_cons_preStart (inp : Input) (tx : Txn)
    (hd : tx.date < inp.startDate) :
    monthsSorted {inp with txns := tx :: inp.txns} = monthsSorted inp := by
  unfold monthsSorted monthKeys
  rw [envTxns_cons_preStart inp tx hd]

theorem budgetedCats_txn_cons (inp : Input) (tx : Txn) :
    budgetedCats {inp with txns := tx :: inp.txns} = budgetedCats inp := rfl

theorem envDataEq_txn_cons_preStart (inp : Input) (tx : Txn)
    (hd : tx.date < inp.startDate) (m : Nat) :
    EnvDataEq {inp with txns := tx :: inp.txns} inp m := by
  have he := envTxns_cons_preStart inp tx hd
  refine ⟨rfl, rfl, rfl, fun c => rfl, fun c => rfl, fun c => rfl, fun c => ?_, fun c => ?_⟩
  · unfold spentAt; rw [he]
  · unfold refundsAt; rw [he]

theorem monthTxnsAll_cons (inp : Input) (tx : Txn) (hp : tx.posted = true) (m : Nat) :
    monthTxnsAll {inp with txns := tx :: inp.txns} m =
      if tx.month = m then tx :: monthTxnsAll inp m else monthTxnsAll inp m := by
  unfold monthTxnsAll postedTxns
  show List.filter _ (List.filter _ (tx :: inp.txns)) = _
  rw [List.filter_cons]
  simp only [hp, if_true]
  rw [List.filter_cons]
  by_cases h : tx.month = m
  · simp [h]
  · simp [h]

theorem monthInc_cons (inp : Input) (tx : Txn) (hp : tx.posted = true) (m : Nat) :
    monthInc {inp with txns := tx :: inp.txns} m =
      monthInc inp m + (if tx.month = m ∧ 0 < tx.amount then tx.amount else 0) := by
  unfold monthInc
  rw [monthTxnsAll_cons inp tx hp]
  by_cases h : tx.month = m
  · rw [if_pos h, List.filter_cons]
    by_cases ha : 0 < tx.amount
    · rw [if_pos (⟨h, ha⟩ : tx.month = m ∧ 0 < tx.amount)]
      simp only [decide_eq_true ha, if_true, List.map_cons, List.sum_cons]
      omega
    · simp only [decide_eq_false ha, Bool.false_eq_true, if_false]
      rw [if_neg (fun hh => ha hh.2), add_zero]
  · rw [if_neg h, if_neg (fun hh => h hh.1), add_zero]

theorem monthExp_cons (inp : Input) (tx : Txn) (hp : tx.posted = true) (m : Nat) :
    monthExp {inp with txns := tx :: inp.txns} m =
      monthExp inp m + (if tx.month = m ∧ tx.amount < 0 then -tx.amount else 0) := by
  unfold monthExp
  rw [monthTxnsAll_cons inp tx hp]
  by_cases h : tx.month = m
  · rw [if_pos h, List.filter_cons]
    by_cases ha : tx.amount < 0
    · rw [if_pos (⟨h, ha⟩ : tx.month = m ∧ tx.amount < 0)]
      simp only [decide_eq_true ha, if_true, List.map_cons, List.sum_cons]
      omega
    · simp only [decide_eq_false ha, Bool.false_eq_true, if_false]
      rw [if_neg (fun hh => ha hh.2), add_zero]
  · rw [if_neg h, if_neg (fun hh => h hh.1), add_zero]

theorem netFlow_cons (inp : Input) (tx : Txn) (hp : tx.posted = true) (m : Nat) :
    netFlow {inp with txns := tx :: inp.txns} m =
      netFlow inp m + (if tx.month = m then tx.amount else 0) := by
  unfold netFlow
  rw [monthInc_cons inp tx hp, monthExp_cons inp tx hp]
  by_cases h : tx.month = m
  · simp only [h, if_true, true_and]
    rcases lt_trichotomy tx.amount 0 with ha | ha | ha
    · rw [if_neg (by omega), if_pos ha]; omega
    · rw [if_neg (by omega), if_neg (by omega)]; omega
    · rw [if_pos ha, if_neg (by omega)]; omega
  · simp [h]

theorem monthDataEq_txn_cons_preStart (inp : Input) (tx : Txn) (hp : tx.posted = true)
    (hd : tx.date < inp.startDate) {m : Nat} (hm : m ≠ tx.month) :
    MonthDataEq {inp with txns := tx :: inp.txns} inp m := by
  have he := envDataEq_txn_cons_preStart inp tx hd m
  exact ⟨he.cats, he.fut, he.snap, by
    rw [netFlow_cons inp tx hp, if_neg (fun h => hm h.symm), add_zero],
    he.row, he.tin, he.tout, he.spent, he.refunds⟩

/-! ### The running allocation is the most recent explicit row -/

theorem foldl_getD_no_hit (f : Nat → Option Int) {ms : List Nat}
    (h : ∀ k ∈ ms, f k = none) :
    ∀ v : Int, ms.foldl (fun v k => (f k).getD v) v = v := by
  induction ms with
  | nil => intro v; rfl
  | cons x t ih =>
    intro v
    simp only [List.foldl_cons, h x (List.mem_cons_self x t), Option.getD_none]
    exact ih (fun k hk => h k (List.mem_cons_of_mem x hk)) v

theorem foldl_getD_last_hit (f : Nat → Option Int) {ms : List Nat}
    (hs : List.Sorted (· < ·) ms) {m0 : Nat} (hm0 : m0 ∈ ms) {a : Int}
    (ha : f m0 = some a) (hle : ∀ k ∈ ms, (f k).isSome → k ≤ m0) :
    ∀ v : Int, ms.foldl (fun v k => (f k).getD v) v = a := by
  induction ms with
  | nil => cases hm0
  | cons x t ih =>
    intro v
    rcases List.mem_cons.mp hm0 with heq | hmt
    · subst heq
      have hnone : ∀ k ∈ t, f k = none := by
        intro k hk
        have hklt : m0 < k := (List.sorted_cons.mp hs).1 k hk
        cases hfk : f k with
        | none => rfl
        | some b =>
          have := hle k (List.mem_cons_of_mem m0 hk) (by simp [hfk])
          omega
      simp only [List.foldl_cons, ha, Option.getD_some]
      exact foldl_getD_no_hit f hnone a
    · simp only [List.foldl_cons]
      exact ih (List.sorted_cons.mp hs).2 hmt
        (fun k hk hsk => hle k (List.mem_cons_of_mem x hk) hsk) _

theorem budgetRowAt_isSome_exists {inp : Input} {m : Nat} {c : String}
    (h : (budgetRowAt inp m c).isSome) :
    ∃ b ∈ inp.budgets, b.month = m ∧ b.category = c := by
  unfold budgetRowAt at h
  rcases hf : inp.budgets.filter (fun b => b.month == m && b.category == c) with _ | ⟨b, l⟩
  · rw [hf] at h; simp at h
  · have hb : b ∈ inp.budgets.filter (fun b => b.month == m && b.category == c) := by
      rw [hf]; exact List.mem_cons_self b l
    have := List.mem_filter.mp hb
    refine ⟨b, this.1, ?_⟩
    have hp := this.2
    simp only [Bool.and_eq_true, beq_iff_eq] at hp
    exact hp

theorem budget_month_mem_monthsSorted {inp : Input} {b : BudgetRow}
    (hb : b ∈ inp.budgets) : b.month ∈ monthsSorted inp := by
  rw [mem_monthsSorted]
  unfold monthKeys
  exact List.mem_cons_of_mem _ (List.mem_append.mpr (Or.inl (List.mem_append.mpr
    (Or.inl (List.mem_map.mpr ⟨b, hb, rfl⟩)))))

/-! ### Splitting the walked prefix at a snapshot month -/

theorem sorted_filter_lt_append {l : List Nat} (hs : List.Sorted (· < ·) l) (a : Nat) :
    l.filter (fun k => decide (k < a)) ++ l.filter (fun k => decide (a ≤ k)) = l := by
  induction l with
  | nil => rfl
  | cons x t ih =>
    have hxt : ∀ b ∈ t, x < b := fun b hb => (List.sorted_cons.mp hs).1 b hb
    by_cases hx : x < a
    · simp only [List.filter_cons, decide_eq_true hx, if_true,
        decide_eq_false (show ¬a ≤ x by omega), Bool.false_eq_true, if_false,
        List.cons_append]
      rw [ih (List.sorted_cons.mp hs).2]
    · have h1 : t.filter (fun k => decide (k < a)) = [] :=
        List.filter_eq_nil_iff.mpr (fun b hb => by
          have := hxt b hb; simp; omega)
      have h2 : t.filter (fun k => decide (a ≤ k)) = t :=
        List.filter_eq_self.mpr (fun b hb => by
          have := hxt b hb; simp; omega)
      simp only [List.filter_cons, decide_eq_false hx, Bool.false_eq_true, if_false,
        decide_eq_true (show a ≤ x by omega), if_true, h1, h2, List.nil_append]

theorem sorted_filter_ge_eq {l : List Nat} (hs : List.Sorted (· < ·) l) {a : Nat}
    (ha : a ∈ l) :
    l.filter (fun k => decide (a ≤ k)) = a :: l.filter (fun k => decide (a < k)) := by
  induction l with
  | nil => cases ha
  | cons x t ih =>
    have hxt : ∀ b ∈ t, x < b := fun b hb => (List.sorted_cons.mp hs).1 b hb
    rcases List.mem_cons.mp ha with heq | hat
    · subst heq
      have h1 : t.filter (fun k => decide (a ≤ k)) = t :=
        List.filter_eq_self.mpr (fun b hb => by
          have := hxt b hb; simp; omega)
      have h2 : t.filter (fun k => decide (a < k)) = t :=
        List.filter_eq_self.mpr (fun b hb => by
          have := hxt b hb; simp; omega)
      simp only [List.filter_cons, decide_eq_true (Nat.le_refl a), if_true,
        decide_eq_false (lt_irrefl a), Bool.false_eq_true, if_false, h1, h2]
    · have hxa : x < a := hxt a hat
      simp only [List.filter_cons, decide_eq_false (show ¬a ≤ x by omega),
        Bool.false_eq_true, if_false, decide_eq_false (show ¬a < x by omega)]
      exact ih (List.sorted_cons.mp hs).2 hat

theorem cum_scalar_fold_no_snap (inp : Input) {ms : List Nat}
    (h : ∀ k ∈ ms, snapAt inp k = none) :
    ∀ c0 : Int, ms.foldl (fun c k => (if (snapAt inp k).isSome then 0 else c) +
        (if isFuture inp k then 0 else netFlow inp k)) c0 =
      c0 + (ms.map (fun k => if isFuture inp k then (0 : Int) else netFlow inp k)).sum := by
  induction ms with
  | nil => intro c0; simp
  | cons x t ih =>
    intro c0
    simp only [List.foldl_cons, h x (List.mem_cons_self x t), Option.isSome_none,
      Bool.false_eq_true, if_false, List.map_cons, List.sum_cons]
    rw [ih (fun k hk => h k (List.mem_cons_of_mem x hk))]
    omega

/-- The since-snapshot accumulator exposed at the end of month `m` equals the
sum of the non-future net flows of the index months from the most recent
snapshot month `ma ≤ m` (inclusive: the reset precedes the month's own
accumulation) through `m`. -/
theorem cumAt_since_snapshot (inp : Input) {ma m : Nat}
    (hma : ma ∈ monthsSorted inp) (hsnap : (snapAt inp ma).isSome) (hle : ma ≤ m)
    (hnone : ∀ k ∈ monthsSorted inp, ma < k → k ≤ m → snapAt inp k = none) :
    cumAt inp m = (((monthsUpTo inp m).filter (fun k => decide (ma ≤ k))).map
      (fun k => if isFuture inp k then (0 : Int) else netFlow inp k)).sum := by
  have hsort : List.Sorted (· < ·) (monthsUpTo inp m) :=
    (monthsSorted_sorted_lt inp).sublist (List.filter_sublist _)
  have hmem : ma ∈ monthsUpTo inp m :=
    List.mem_filter.mpr ⟨hma, decide_eq_true hle⟩
  have hsplit := sorted_filter_lt_append hsort ma
  have hge := sorted_filter_ge_eq hsort hmem
  unfold cumAt stateThrough stateAfterMonths
  rw [cum_fold]
  have hrw : monthsUpTo inp m = (monthsUpTo inp m).filter (fun k => decide (k < ma)) ++
      (ma :: (monthsUpTo inp m).filter (fun k => decide (ma < k))) := by
    rw [← hge, hsplit]
  have hnone' : ∀ k ∈ (monthsUpTo inp m).filter (fun k => decide (ma < k)),
      snapAt inp k = none := by
    intro k hk
    have h1 := List.mem_filter.mp hk
    have h2 := List.mem_filter.mp h1.1
    refine hnone k h2.1 (by simpa using h1.2) (by simpa using h2.2)
  conv_lhs => rw [hrw]
  rw [List.foldl_append]
  simp only [List.foldl_cons]
  rw [if_pos hsnap, zero_add, cum_scalar_fold_no_snap inp hnone', hge]
  simp only [List.map_cons, List.sum_cons]

/-! ### Remaining small helpers -/

theorem mem_envTxns (inp : Input) (t : Txn) :
    t ∈ envTxns inp ↔ t ∈ inp.txns ∧ t.posted = true ∧ inp.startDate ≤ t.date := by
  unfold envTxns postedTxns
  simp only [List.mem_filter, decide_eq_true_eq, and_assoc]

theorem rollovers_untracked (inp : Input) {c : String} (hc : c ∉ budgetedCats inp)
    (ms : List Nat) : ∀ st : WalkState,
      (ms.foldl (monthStep inp) st).rollovers c = st.rollovers c := by
  induction ms with
  | nil => intro st; rfl
  | cons m t ih =>
    intro st
    simp only [List.foldl_cons]
    rw [ih (monthStep inp st m), monthStep_rollovers, if_neg hc]

theorem sum_map_delta (l : List String) (hl : l.Nodup) (f : String → Int)
    (a b : String) (d : Int) :
    (l.map (fun c => f c + (if a = c then d else 0) - (if b = c then d else 0))).sum =
      (l.map f).sum + (if a ∈ l then d else 0) - (if b ∈ l then d else 0) := by
  have h1 : l.map (fun c => f c + (if a = c then d else 0) - (if b = c then d else 0)) =
      l.map (fun c => (f c + (if b = c then -d else 0)) + (if a = c then d else 0)) := by
    refine List.map_congr_left (fun c _ => ?_)
    by_cases h : b = c
    · simp only [if_pos h]
      omega
    · simp only [if_neg h]
      omega
  rw [h1, sum_map_add_ite hl (fun c => f c + (if b = c then -d else 0)) a d,
    sum_map_add_ite hl f b (-d)]
  by_cases hal : a ∈ l <;> by_cases hbl : b ∈ l <;>
    simp only [hal, hbl, if_true, if_false] <;> omega

/-- Conservation at the level of the whole envelope system: the prepended
transfer moves the total enveloped cash by the amounts its endpoints are
actually credited and debited — each only when budgeted. -/
theorem totalEnveloped_transfer_delta (inp : Input) (row : TransferRow)
    (hm : row.month ∈ monthsSorted inp) :
    totalEnveloped {inp with transfers := row :: inp.transfers} row.month =
      totalEnveloped inp row.month +
        (if row.toCat ∈ budgetedCats inp then row.amount else 0) -
        (if row.fromCat ∈ budgetedCats inp then row.amount else 0) := by
  unfold totalEnveloped
  rw [show budgetedCats {inp with transfers := row :: inp.transfers} =
    budgetedCats inp from rfl]
  rw [List.map_congr_left (fun c hc => available_transfer_delta inp row hm hc)]
  exact sum_map_delta _ (List.nodup_dedup _) _ _ _ _

theorem postedIncome_cons (inp : Input) (tx : Txn) (hp : tx.posted = true)
    (hinc : inp.incomeCats ≠ []) (m : Nat) :
    postedIncome {inp with txns := tx :: inp.txns} m =
      postedIncome inp m + (if tx.month = m ∧ 0 < tx.amount ∧
        (tx.primCat ∈ inp.incomeCats ∨ tx.detCat ∈ inp.incomeCats)
        then tx.amount else 0) := by
  unfold postedIncome
  have hproj : ({inp with txns := tx :: inp.txns} : Input).incomeCats = inp.incomeCats := rfl
  rw [hproj, if_neg hinc, if_neg hinc, monthTxnsAll_cons inp tx hp]
  by_cases hm : tx.month = m
  · rw [if_pos hm, List.filter_cons]
    by_cases hcond : 0 < tx.amount ∧
        (tx.primCat ∈ inp.incomeCats ∨ tx.detCat ∈ inp.incomeCats)
    · have hb : (decide (0 < tx.amount) && (decide (tx.primCat ∈ inp.incomeCats) ||
          decide (tx.detCat ∈ inp.incomeCats))) = true := by
        rcases hcond with ⟨h1, h2⟩
        rcases h2 with h2 | h2 <;> simp [h1, h2]
      simp only [hb, if_true, List.map_cons, List.sum_cons, if_pos (⟨hm, hcond⟩ :
        tx.month = m ∧ 0 < tx.amount ∧
          (tx.primCat ∈ inp.incomeCats ∨ tx.detCat ∈ inp.incomeCats))]
      omega
    · have hb : (decide (0 < tx.amount) && (decide (tx.primCat ∈ inp.incomeCats) ||
          decide (tx.detCat ∈ inp.incomeCats))) = false := by
        rw [Bool.eq_false_iff]
        intro hb
        apply hcond
        simpa [Bool.and_eq_true, Bool.or_eq_true, decide_eq_true_eq] using hb
      simp only [hb, Bool.false_eq_true, if_false]
      rw [if_neg (fun h => hcond h.2), add_zero]
  · rw [if_neg hm, if_neg (fun h => hm h.1), add_zero]

theorem otherIncome_cons (inp : Input) (tx : Txn) (hp : tx.posted = true)
    (hinc : inp.incomeCats ≠ []) (m : Nat) :
    otherIncome {inp with txns := tx :: inp.txns} m =
      otherIncome inp m + (if tx.month = m ∧ 0 < tx.amount ∧
        tx.primCat ∉ inp.incomeCats ++ inp.untrackedExclusions ∧
        tx.detCat ∉ inp.incomeCats ++ inp.untrackedExclusions
        then tx.amount else 0) := by
  unfold otherIncome
  have hproj : ({inp with txns := tx :: inp.txns} : Input).incomeCats = inp.incomeCats := rfl
  have hproj2 : ({inp with txns := tx :: inp.txns} : Input).untrackedExclusions =
      inp.untrackedExclusions := rfl
  rw [hproj, hproj2, if_neg hinc, if_neg hinc, monthTxnsAll_cons inp tx hp]
  by_cases hm : tx.month = m
  · rw [if_pos hm, List.filter_cons]
    by_cases hcond : 0 < tx.amount ∧
        tx.primCat ∉ inp.incomeCats ++ inp.untrackedExclusions ∧
        tx.detCat ∉ inp.incomeCats ++ inp.untrackedExclusions
    · have hb : (decide (0 < tx.amount) &&
          !(decide (tx.primCat ∈ inp.incomeCats ++ inp.untrackedExclusions) ||
            decide (tx.detCat ∈ inp.incomeCats ++ inp.untrackedExclusions))) = true := by
        simp [hcond.1, hcond.2.1, hcond.2.2]
      simp only [hb, if_true, List.map_cons, List.sum_cons, if_pos (⟨hm, hcond⟩ :
        tx.month = m ∧ 0 < tx.amount ∧
          tx.primCat ∉ inp.incomeCats ++ inp.untrackedExclusions ∧
          tx.detCat ∉ inp.incomeCats ++ inp.untrackedExclusions)]
      omega
    · have hb : (decide (0 < tx.amount) &&
          !(decide (tx.primCat ∈ inp.incomeCats ++ inp.untrackedExclusions) ||
            decide (tx.detCat ∈ inp.incomeCats ++ inp.untrackedExclusions))) = false := by
        rw [Bool.eq_false_iff]
        intro hb
        apply hcond
        simp only [Bool.and_eq_true, Bool.not_eq_true', Bool.or_eq_false_iff,
          decide_eq_true_eq, decide_eq_false_iff_not] at hb
        exact ⟨hb.1, hb.2.1, hb.2.2⟩
      simp only [hb, Bool.false_eq_true, if_false]
      rw [if_neg (fun h => hcond h.2), add_zero]
  · rw [if_neg hm, if_neg (fun h => hm h.1), add_zero]

/-! ### The claims -/

/-- C1 (corrected).  The original claim fails: with a prior explicit
allocation on record, a quiet past/current month still adds the fallback
allocation, so `available` moves.  Amended: when additionally the effective
allocation for the month is zero — the month is future, or the engine's
last-known explicit allocation for the category entering the month is 0 —
a month with no explicit budget row, no transfers touching the category and
no posted transactions in it leaves `available[c, m] = available[c, m−1]`. -/
theorem claim1_theorem (inp : Input) (c : String) (m : Nat)
    (hm : m ∈ monthsSorted inp) (h1 : 1 ≤ m) (hc : c ∈ budgetedCats inp)
    (hrow : ∀ b ∈ inp.budgets, ¬(b.month = m ∧ b.category = c))
    (htr : ∀ r ∈ inp.transfers, r.month = m → r.fromCat ≠ c ∧ r.toCat ≠ c)
    (htx : ∀ t ∈ inp.txns, t.posted = true → ¬(t.month = m ∧ t.detCat = c))
    (hall : isFuture inp m = true ∨ (stateBefore inp m).runningAllocations c = 0) :
    available inp c m = available inp c (m - 1) := by
  have hbfil : inp.budgets.filter (fun b => b.month == m && b.category == c) = [] :=
    List.filter_eq_nil_iff.mpr (fun b hb => by
      simp only [Bool.and_eq_true, beq_iff_eq]
      exact hrow b hb)
  have hbr : budgetRowAt inp m c = none := by
    unfold budgetRowAt; rw [hbfil]; rfl
  have htin : tIn inp m c = 0 := by
    unfold tIn
    rw [List.filter_eq_nil_iff.mpr (fun r hr => by
      simp only [Bool.and_eq_true, beq_iff_eq]
      exact fun h => (htr r hr h.1).2 h.2)]
    rfl
  have htout : tOut inp m c = 0 := by
    unfold tOut
    rw [List.filter_eq_nil_iff.mpr (fun r hr => by
      simp only [Bool.and_eq_true, beq_iff_eq]
      exact fun h => (htr r hr h.1).1 h.2)]
    rfl
  have hefil : (envTxns inp).filter (fun t => t.month == m && t.detCat == c) = [] :=
    List.filter_eq_nil_iff.mpr (fun t ht => by
      have hmem := (mem_envTxns inp t).mp ht
      simp only [Bool.and_eq_true, beq_iff_eq]
      exact htx t hmem.1 hmem.2.1)
  have hsp : spentAt inp m c = 0 := by unfold spentAt; rw [hefil]; rfl
  have hrf : refundsAt inp m c = 0 := by unfold refundsAt; rw [hefil]; rfl
  have halloc : allocUsed inp (stateBefore inp m) m c = 0 := by
    unfold allocUsed allocThisMonth
    by_cases hf : isFuture inp m = true
    · rw [if_pos hf, hbr]; rfl
    · rw [if_neg hf, hbr]
      rcases hall with h | h
      · exact absurd h hf
      · exact h
  have hmain : available inp c m = (stateBefore inp m).rollovers c := by
    unfold available
    rw [stateThrough_eq inp hm, monthStep_rollovers, if_pos hc]
    unfold balAt
    rw [halloc, htin, htout, hsp, hrf]
    omega
  rw [hmain]
  unfold available
  rw [stateThrough_pred inp h1]

/-- C1, the original statement refuted: in `exC1`, month 2 (current) has no
budget row, no transfers and no transactions for `A`, yet `available`
doubles because the fallback re-applies the month-1 allocation of 300.00. -/
theorem claim1_counterexample :
    2 ∈ monthsSorted exC1 ∧ budgetRowAt exC1 2 "A" = none ∧
    exC1.transfers = [] ∧ exC1.txns = [] ∧ isFuture exC1 2 = false ∧
    available exC1 "A" 2 = 60000 ∧ available exC1 "A" (2 - 1) = 30000 ∧
    available exC1 "A" 2 ≠ available exC1 "A" (2 - 1) := by decide

/-- C1's amended recurrence, instantiated: in `exW1` the only explicit
allocation for `A` is 0, so quiet month 2 carries month 1's balance. -/
theorem claim1_witness :
    available exW1 "A" 2 = available exW1 "A" (2 - 1) :=
  claim1_theorem exW1 "A" 2 (by decide) (by decide) (by decide) (by decide)
    (by decide) (by decide) (Or.inr (by decide))

/-- C2 (corrected).  The original claim fails: the code computes
`live_bank_balance = last_known_balance + this month's net flow`, not
snapshot + accumulated flow since the snapshot.  Amended: for every month,
the live bank balance equals the balance of the most recent
snapshot-bearing index month at or before it (0 if none) plus that month's
own net transaction flow. -/
theorem claim2_theorem (inp : Input) (m : Nat) :
    liveBank inp m = latestSnapBal inp m + netFlow inp m := by
  unfold liveBank
  rw [lastKnownBalance_eq_latestSnapBal]

/-- C2, the original statement refuted: in `exC2` the month-3 live balance
is snapshot + month 3's own flow (1050.00), not snapshot + the accumulated
flow since the snapshot (1150.00). -/
theorem claim2_counterexample :
    liveBank exC2 3 = 105000 ∧
    (stateThrough exC2 3).lastKnownBalance = 100000 ∧ cumAt exC2 3 = 15000 ∧
    liveBank exC2 3 ≠ (stateThrough exC2 3).lastKnownBalance + cumAt exC2 3 := by
  decide

/-- C3 (confirmed).  With an explicit allocation `a` for category `c` in
month `m0` and none later, every past/current month after `m0` uses the
fallback allocation `a`, and every future month after `m0` uses 0. -/
theorem claim3_theorem (inp : Input) (c : String) (a : Int) (m0 m1 m2 : Nat)
    (hc : c ∈ budgetedCats inp) (hrow0 : budgetRowAt inp m0 c = some a)
    (hlater : ∀ b ∈ inp.budgets, b.category = c → b.month ≤ m0)
    (h01 : m0 < m1) (hfut1 : isFuture inp m1 = false)
    (h02 : m0 < m2) (hfut2 : isFuture inp m2 = true) :
    allocUsed inp (stateBefore inp m1) m1 c = a ∧
    allocUsed inp (stateBefore inp m2) m2 c = 0 := by
  have hnone : ∀ k, m0 < k → budgetRowAt inp k c = none := by
    intro k hk
    cases hb : budgetRowAt inp k c with
    | none => rfl
    | some x =>
      exfalso
      obtain ⟨b, hbmem, hbm, hbc⟩ := @budgetRowAt_isSome_exists inp k c (by rw [hb]; rfl)
      have := hlater b hbmem hbc
      omega
  have hm0mem : m0 ∈ monthsSorted inp := by
    obtain ⟨b, hbmem, hbm, hbc⟩ := @budgetRowAt_isSome_exists inp m0 c (by rw [hrow0]; rfl)
    have := budget_month_mem_monthsSorted hbmem
    rwa [hbm] at this
  constructor
  · unfold allocUsed
    simp only [hfut1, Bool.false_eq_true, if_false]
    rw [hnone m1 h01]
    show (stateBefore inp m1).runningAllocations c = a
    unfold stateBefore stateAfterMonths
    rw [runningAllocations_fold inp _ hc]
    exact foldl_getD_last_hit (fun k => budgetRowAt inp k c)
      ((monthsSorted_sorted_lt inp).sublist (List.filter_sublist _))
      (List.mem_filter.mpr ⟨hm0mem, decide_eq_true h01⟩) hrow0
      (fun k hk hsk => by
        obtain ⟨b, hbmem, hbm, hbc⟩ := budgetRowAt_isSome_exists hsk
        have := hlater b hbmem hbc
        omega) _
  · unfold allocUsed allocThisMonth
    simp only [hfut2, if_true]
    rw [hnone m2 h02]
    rfl

/-- C3 instantiated on `exW3`: allocation 300.00 in month 1 only; the
current month is 3, so month 2 falls back to 300.00 and future month 4
gets 0. -/
theorem claim3_witness :
    allocUsed exW3 (stateBefore exW3 2) 2 "C" = 30000 ∧
    allocUsed exW3 (stateBefore exW3 4) 4 "C" = 0 :=
  claim3_theorem exW3 "C" 30000 1 2 4 (by decide) (by decide) (by decide)
    (by decide) (by decide) (by decide) (by decide)

/-- C4 (confirmed).  On the spec's scenario (underfunded X: −50.00,
Y: −30.00; surplus Z: 40.00, W: 45.00) the advisor fully covers `X` (from
`W` first, the larger surplus) before funding `Y`, its moves sum to
`min(80, 85) = 80.00`, no envelope receives more than its need and none
gives more than its surplus. -/
theorem claim4_theorem :
    smartRebalance [] exEnvs =
      [⟨"W", "X", 4500⟩, ⟨"Z", "X", 500⟩, ⟨"Z", "Y", 3000⟩] ∧
    ((smartRebalance [] exEnvs).map (·.amount)).sum = min (5000 + 3000) (4000 + 4500) ∧
    movesTo (smartRebalance [] exEnvs) "X" = 5000 ∧
    movesTo (smartRebalance [] exEnvs) "Y" = 3000 ∧
    movesTo (smartRebalance [] exEnvs) "X" ≤ 5000 ∧
    movesTo (smartRebalance [] exEnvs) "Y" ≤ 3000 ∧
    movesFrom (smartRebalance [] exEnvs) "Z" ≤ 4000 ∧
    movesFrom (smartRebalance [] exEnvs) "W" ≤ 4500 := by
  decide

/-- C5 (confirmed).  A transfer `(m, A, B, amt)` between two distinct
budgeted categories lowers `available[A, m]` by exactly `amt` and raises
`available[B, m]` by exactly `amt` relative to the identical run without the
row, provided month `m` is in the baseline index (so both runs compute an
envelope state for it). -/
theorem claim5_theorem (inp : Input) (row : TransferRow)
    (hm : row.month ∈ monthsSorted inp)
    (hA : row.fromCat ∈ budgetedCats inp) (hB : row.toCat ∈ budgetedCats inp)
    (hAB : row.fromCat ≠ row.toCat) :
    available {inp with transfers := row :: inp.transfers} row.fromCat row.month =
      available inp row.fromCat row.month - row.amount ∧
    available {inp with transfers := row :: inp.transfers} row.toCat row.month =
      available inp row.toCat row.month + row.amount := by
  constructor
  · rw [available_transfer_delta inp row hm hA, if_neg (fun h => hAB h.symm),
      if_pos rfl]
    omega
  · rw [available_transfer_delta inp row hm hB, if_pos rfl, if_neg hAB]
    omega

/-- C5 instantiated on `exW5`: moving 20.00 from `A` to `B` in month 1
shifts exactly 20.00 between the two envelopes. -/
theorem claim5_witness :
    available {exW5 with transfers := (⟨1, "A", "B", 2000⟩ : TransferRow) ::
        exW5.transfers} "A" 1 = available exW5 "A" 1 - 2000 ∧
    available {exW5 with transfers := (⟨1, "A", "B", 2000⟩ : TransferRow) ::
        exW5.transfers} "B" 1 = available exW5 "B" 1 + 2000 :=
  claim5_theorem exW5 ⟨1, "A", "B", 2000⟩ (by decide) (by decide) (by decide) (by decide)

/-- C6 (corrected).  The original claim fails: the reset at a snapshot month
happens before that month's own flow is accumulated, so the accumulator
"since `m_a`" includes `m_a`'s own net flow, not only months after it.
Amended: between snapshots `m_a < m_b < m_c`, the accumulator exposed at
`m_b` is the sum of the non-future net flows of the index months from `m_a`
(inclusive) through `m_b`; at `m_c` the accumulator is reset to 0 upon
encountering the snapshot, regardless of its prior value, and the exposed
value at `m_c` is then `m_c`'s own (non-future) net flow. -/
theorem claim6_theorem (inp : Input) (ma mb mc : Nat)
    (hma : ma ∈ monthsSorted inp) (hsa : (snapAt inp ma).isSome = true)
    (hab : ma < mb) (hbc : mb < mc)
    (hmc : mc ∈ monthsSorted inp) (hsc : (snapAt inp mc).isSome = true)
    (hnone : ∀ k ∈ monthsSorted inp, ma < k → k < mc → snapAt inp k = none) :
    cumAt inp mb = (((monthsUpTo inp mb).filter (fun k => decide (ma ≤ k))).map
        (fun k => if isFuture inp k then (0 : Int) else netFlow inp k)).sum ∧
    (stepSnap inp mc (stateBefore inp mc)).cumulativeSinceSnapshot = 0 ∧
    cumAt inp mc = if isFuture inp mc then 0 else netFlow inp mc := by
  refine ⟨?_, ?_, ?_⟩
  · exact cumAt_since_snapshot inp hma hsa (Nat.le_of_lt hab)
      (fun k hk h1 h2 => hnone k hk h1 (by omega))
  · obtain ⟨b, hb⟩ := Option.isSome_iff_exists.mp hsc
    unfold stepSnap
    rw [hb]
  · unfold cumAt
    rw [stateThrough_eq inp hmc, monthStep_cum, if_pos hsc, zero_add]

/-- C6, the original statement refuted: in `exC6` (snapshots in months 1
and 3, flow 70.00 in month 1 and 20.00 in month 2) the accumulator exposed
at month 2 is 90.00 — it includes snapshot month 1's own flow — where the
claim predicts only the 20.00 of the months strictly after the snapshot. -/
theorem claim6_counterexample :
    (snapAt exC6 1).isSome = true ∧ snapAt exC6 2 = none ∧
    (snapAt exC6 3).isSome = true ∧
    netFlow exC6 1 = 7000 ∧ netFlow exC6 2 = 2000 ∧
    cumAt exC6 2 = 9000 ∧
    cumAt exC6 2 ≠ (((monthsUpTo exC6 2).filter (fun k => decide (1 < k))).map
      (fun k => if isFuture exC6 k then (0 : Int) else netFlow exC6 k)).sum := by
  decide

/-- C6's amended accumulator law instantiated on `exC6` with
`m_a, m_b, m_c = 1, 2, 3`. -/
theorem claim6_witness :
    cumAt exC6 2 = (((monthsUpTo exC6 2).filter (fun k => decide (1 ≤ k))).map
        (fun k => if isFuture exC6 k then (0 : Int) else netFlow exC6 k)).sum ∧
    (stepSnap exC6 3 (stateBefore exC6 3)).cumulativeSinceSnapshot = 0 ∧
    cumAt exC6 3 = if isFuture exC6 3 then 0 else netFlow exC6 3 :=
  claim6_theorem exC6 1 2 3 (by decide) (by decide) (by decide) (by decide)
    (by decide) (by decide) (by decide)

/-- C7 (corrected).  The original claim fails: there is no configured
tracked-category set — the tracked set is exactly the set of categories
named by some budget allocation row, so envelope existence is *not*
independent of the budget rows.  Amended: a category receives envelope
state if and only if some budget row (in any month) names it; a category
named by no budget row carries a zero balance in every month; and the
uncategorized-spend pool contains exactly the positive-expense,
date-filtered transactions of a month whose detailed category is
unbudgeted and whose categories avoid the untracked exclusions. -/
theorem claim7_theorem (inp : Input) (c : String) (m : Nat) :
    (c ∈ budgetedCats inp ↔ ∃ b ∈ inp.budgets, b.category = c) ∧
    (c ∉ budgetedCats inp → available inp c m = 0) ∧
    (∀ t, t ∈ uncatTxns inp m ↔ t ∈ envTxns inp ∧ t.month = m ∧ 0 < t.expense ∧
      t.detCat ∉ budgetedCats inp ∧ t.detCat ∉ inp.untrackedExclusions ∧
      t.primCat ∉ inp.untrackedExclusions) := by
  refine ⟨?_, ?_, ?_⟩
  · unfold budgetedCats
    simp [List.mem_dedup, List.mem_map]
  · intro hc
    unfold available stateThrough stateAfterMonths
    rw [rollovers_untracked inp hc]
    rfl
  · intro t
    unfold uncatTxns
    simp only [List.mem_filter, Bool.and_eq_true, Bool.not_eq_true', beq_iff_eq,
      decide_eq_true_eq, decide_eq_false_iff_not, and_assoc]

/-- C7, the original statement refuted: `exC7a` and `exC7b` share every
configuration set and differ only in budget rows, yet `A` is tracked in one
and not the other — tracking depends on the budget rows. -/
theorem claim7_counterexample :
    "A" ∈ budgetedCats exC7a ∧ "A" ∉ budgetedCats exC7b ∧
    exC7b = {exC7a with budgets := []} ∧
    exC7a.incomeCats = exC7b.incomeCats ∧
    exC7a.healthExclusions = exC7b.healthExclusions ∧
    exC7a.untrackedExclusions = exC7b.untrackedExclusions ∧
    available exC7a "A" 1 = 10000 ∧ available exC7b "A" 1 = 0 :=
  ⟨by decide, by decide, rfl, rfl, rfl, rfl, by decide, by decide⟩

/-- C8 (corrected).  The original claim fails: the index only picks up the
months of posted transactions dated on or after the configured start date,
so a posted transaction dated before it does not force its month into the
index.  Amended: the index is a strictly ascending (hence distinct)
sequence containing exactly the current calendar month, every budget-row
month, every transfer month and the month of every posted transaction dated
on or after the start date; and a month is future iff it is strictly later
than the current month. -/
theorem claim8_theorem (inp : Input) :
    List.Sorted (· < ·) (monthsSorted inp) ∧
    (∀ m, m ∈ monthsSorted inp ↔
      (m = inp.currentMonth ∨ (∃ b ∈ inp.budgets, b.month = m) ∨
       (∃ r ∈ inp.transfers, r.month = m) ∨
       (∃ t ∈ inp.txns, (t.posted = true ∧ inp.startDate ≤ t.date) ∧ t.month = m))) ∧
    (∀ m, isFuture inp m = true ↔ inp.currentMonth < m) := by
  refine ⟨monthsSorted_sorted_lt inp, fun m => ?_, fun m => ?_⟩
  · rw [mem_monthsSorted]
    unfold monthKeys
    simp only [List.mem_cons, List.mem_append, List.mem_map, mem_envTxns, and_assoc,
      or_assoc]
  · unfold isFuture
    simp

/-- C8, the original statement refuted: `exC8` has a posted transaction in
month 5, dated before the start date, and month 5 is absent from the
index. -/
theorem claim8_counterexample :
    (∃ t ∈ exC8.txns, t.posted = true ∧ t.month = 5) ∧ 5 ∉ monthsSorted exC8 := by
  decide

/-- C9 (confirmed).  A transfer row with exactly one budgeted endpoint is
applied one-sidedly: the budgeted sender loses `amt` (the budgeted receiver
gains `amt`) with no offsetting entry anywhere, every other budgeted
envelope is untouched that month, and the total enveloped cash moves by
exactly `∓amt`. -/
theorem claim9_theorem (inp : Input) (row : TransferRow)
    (hm : row.month ∈ monthsSorted inp) :
    (row.fromCat ∈ budgetedCats inp → row.toCat ∉ budgetedCats inp →
      available {inp with transfers := row :: inp.transfers} row.fromCat row.month =
        available inp row.fromCat row.month - row.amount ∧
      (∀ c ∈ budgetedCats inp, c ≠ row.fromCat →
        available {inp with transfers := row :: inp.transfers} c row.month =
          available inp c row.month) ∧
      totalEnveloped {inp with transfers := row :: inp.transfers} row.month =
        totalEnveloped inp row.month - row.amount) ∧
    (row.toCat ∈ budgetedCats inp → row.fromCat ∉ budgetedCats inp →
      available {inp with transfers := row :: inp.transfers} row.toCat row.month =
        available inp row.toCat row.month + row.amount ∧
      (∀ c ∈ budgetedCats inp, c ≠ row.toCat →
        available {inp with transfers := row :: inp.transfers} c row.month =
          available inp c row.month) ∧
      totalEnveloped {inp with transfers := row :: inp.transfers} row.month =
        totalEnveloped inp row.month + row.amount) := by
  constructor
  · intro hA hB
    refine ⟨?_, ?_, ?_⟩
    · rw [available_transfer_delta inp row hm hA,
        if_neg (fun h => hB (by rw [h]; exact hA)), if_pos rfl]
      omega
    · intro c hc hcne
      rw [available_transfer_delta inp row hm hc,
        if_neg (fun h => hB (by rw [h]; exact hc)), if_neg (fun h => hcne h.symm)]
      omega
    · rw [totalEnveloped_transfer_delta inp row hm, if_neg hB, if_pos hA]
      omega
  · intro hB hA
    refine ⟨?_, ?_, ?_⟩
    · rw [available_transfer_delta inp row hm hB, if_pos rfl,
        if_neg (fun h => hA (by rw [h]; exact hB))]
      omega
    · intro c hc hcne
      rw [available_transfer_delta inp row hm hc,
        if_neg (fun h => hcne h.symm), if_neg (fun h => hA (by rw [h]; exact hc))]
      omega
    · rw [totalEnveloped_transfer_delta inp row hm, if_pos hB, if_neg hA]
      omega

/-- C9 instantiated on `exW9`: transferring 20.00 from budgeted `A` to
untracked `B` drains `A` and the total enveloped cash by 20.00 with no
offsetting credit. -/
theorem claim9_witness :
    available {exW9 with transfers := (⟨1, "A", "B", 2000⟩ : TransferRow) ::
        exW9.transfers} "A" 1 = available exW9 "A" 1 - 2000 ∧
    totalEnveloped {exW9 with transfers := (⟨1, "A", "B", 2000⟩ : TransferRow) ::
        exW9.transfers} 1 = totalEnveloped exW9 1 - 2000 :=
  ⟨((claim9_theorem exW9 ⟨1, "A", "B", 2000⟩ (by decide)).1 (by decide) (by decide)).1,
   ((claim9_theorem exW9 ⟨1, "A", "B", 2000⟩ (by decide)).1 (by decide) (by decide)).2.2⟩

/-- C10 (confirmed).  A posted transaction dated before the ledger start
date (in an indexed month, with nonzero amount) leaves every envelope state,
spent and refund figure unchanged, while the live bank balance of its month
moves by exactly its amount (hence differs), the since-snapshot accumulator
moves by its amount when the month is not future, the posted-income figure
moves by its amount when it is positive income-categorized, and the
other-income figure moves by its amount when it is positive and matches
neither the income categories nor the untracked exclusions. -/
theorem claim10_theorem (inp : Input) (tx : Txn) (hp : tx.posted = true)
    (hd : tx.date < inp.startDate) (hm : tx.month ∈ monthsSorted inp)
    (ha : tx.amount ≠ 0) (hinc : inp.incomeCats ≠ []) :
    (∀ c m, available {inp with txns := tx :: inp.txns} c m = available inp c m) ∧
    (∀ c m, spentAt {inp with txns := tx :: inp.txns} m c = spentAt inp m c) ∧
    (∀ c m, refundsAt {inp with txns := tx :: inp.txns} m c = refundsAt inp m c) ∧
    liveBank {inp with txns := tx :: inp.txns} tx.month =
      liveBank inp tx.month + tx.amount ∧
    liveBank {inp with txns := tx :: inp.txns} tx.month ≠ liveBank inp tx.month ∧
    cumAt {inp with txns := tx :: inp.txns} tx.month =
      cumAt inp tx.month + (if isFuture inp tx.month then 0 else tx.amount) ∧
    postedIncome {inp with txns := tx :: inp.txns} tx.month =
      postedIncome inp tx.month + (if 0 < tx.amount ∧
        (tx.primCat ∈ inp.incomeCats ∨ tx.detCat ∈ inp.incomeCats)
        then tx.amount else 0) ∧
    otherIncome {inp with txns := tx :: inp.txns} tx.month =
      otherIncome inp tx.month + (if 0 < tx.amount ∧
        tx.primCat ∉ inp.incomeCats ++ inp.untrackedExclusions ∧
        tx.detCat ∉ inp.incomeCats ++ inp.untrackedExclusions
        then tx.amount else 0) := by
  have hms : monthsSorted {inp with txns := tx :: inp.txns} = monthsSorted inp :=
    monthsSorted_txn_cons_preStart inp tx hd
  have hthrough : ∀ m, EnvAgree (stateThrough {inp with txns := tx :: inp.txns} m)
      (stateThrough inp m) := by
    intro m
    unfold stateThrough monthsUpTo
    rw [hms]
    exact stateAfterMonths_envAgree (fun k _ => envDataEq_txn_cons_preStart inp tx hd k)
  have hlive : liveBank {inp with txns := tx :: inp.txns} tx.month =
      liveBank inp tx.month + tx.amount := by
    unfold liveBank
    rw [(hthrough tx.month).lastBal, netFlow_cons inp tx hp, if_pos rfl]
    omega
  refine ⟨?_, ?_, ?_, hlive, ?_, ?_, ?_, ?_⟩
  · intro c m
    unfold available
    rw [(hthrough m).roll]
  · intro c m
    unfold spentAt
    rw [envTxns_cons_preStart inp tx hd]
  · intro c m
    unfold refundsAt
    rw [envTxns_cons_preStart inp tx hd]
  · rw [hlive]
    omega
  · have hm' : tx.month ∈ monthsSorted {inp with txns := tx :: inp.txns} := by
      rw [hms]; exact hm
    have hpre : stateBefore {inp with txns := tx :: inp.txns} tx.month =
        stateBefore inp tx.month := by
      unfold stateBefore
      rw [hms]
      exact stateAfterMonths_congr (fun k hk => by
        have hklt : k < tx.month := by simpa using List.of_mem_filter hk
        exact monthDataEq_txn_cons_preStart inp tx hp hd (Nat.ne_of_lt hklt))
    unfold cumAt
    rw [stateThrough_eq _ hm', stateThrough_eq inp hm, monthStep_cum, monthStep_cum,
      hpre, netFlow_cons inp tx hp, if_pos rfl,
      show snapAt {inp with txns := tx :: inp.txns} tx.month = snapAt inp tx.month
        from rfl,
      show isFuture {inp with txns := tx :: inp.txns} tx.month = isFuture inp tx.month
        from rfl]
    by_cases hf : isFuture inp tx.month = true <;>
      by_cases hs : (snapAt inp tx.month).isSome = true <;>
      simp only [hf, hs, if_true, if_false, Bool.false_eq_true] <;> omega
  · rw [postedIncome_cons inp tx hp hinc tx.month]
    simp
  · rw [otherIncome_cons inp tx hp hinc tx.month]
    simp

/-- C10 instantiated on `exW10`: a posted 30.00 wage dated day 5 (before
the start day 10) in indexed month 1 leaves envelope `G` unchanged while
moving the live bank balance and posted income by 30.00; a posted 40.00
gift dated the same day moves other income by 40.00. -/
theorem claim10_witness :
    (available {exW10 with txns := (⟨5, 1, 3000, true, "Wages", "Wages"⟩ : Txn) ::
        exW10.txns} "G" 1 = available exW10 "G" 1 ∧
     liveBank {exW10 with txns := (⟨5, 1, 3000, true, "Wages", "Wages"⟩ : Txn) ::
        exW10.txns} 1 = liveBank exW10 1 + 3000 ∧
     postedIncome {exW10 with txns := (⟨5, 1, 3000, true, "Wages", "Wages"⟩ : Txn) ::
        exW10.txns} 1 = postedIncome exW10 1 + 3000) ∧
    otherIncome {exW10 with txns := (⟨5, 1, 4000, true, "Gift", "Gift"⟩ : Txn) ::
        exW10.txns} 1 = otherIncome exW10 1 + 4000 :=
  let h1 := claim10_theorem exW10 ⟨5, 1, 3000, true, "Wages", "Wages"⟩ (by decide)
    (by decide) (by decide) (by decide) (by decide)
  let h2 := claim10_theorem exW10 ⟨5, 1, 4000, true, "Gift", "Gift"⟩ (by decide)
    (by decide) (by decide) (by decide) (by decide)
  ⟨⟨h1.1 "G" 1, h1.2.2.2.1, h1.2.2.2.2.2.2.1⟩, h2.2.2.2.2.2.2.2⟩

end BudgetTriage
